import Mathlib

/-!
# bench/gosynchclient.go : the concurrent benchmark of the synchronous redis client

A shallow embedding of `src/bench/gosynchclient.go`.

* The redis client library, the clock and the `fmt` package are outside the
  repository.  A store call is recorded as an event (its reply is discarded by
  every task, so no reply is modelled); the outcome of each connection attempt
  and each clock reading come from an environment `Env`.
* Every task function (`doPing` .. `doRpop`) is straight-line code whose control
  flow does not depend on the store: it is embedded as the list of actions the
  goroutine performs, computed by the source's `for` loop.
* `benchTask` is a step machine: the calling thread and the launched goroutines
  are interleaved by an arbitrary schedule, and the channel `signal` is a
  bounded buffer.
-/

namespace GoRedisBench

/-! ## Go values -/

/-- Go's `int`/`int64` arithmetic: the result wrapped to `bits`-bit two's complement. -/
def wrapInt (bits : Nat) (x : Int) : Int := Int.bmod x (2 ^ bits)

/-- Whether `x` is a value of the `bits`-bit signed integer type. -/
def inIntRange (bits : Nat) (x : Int) : Prop := -(2 ^ (bits - 1) : Int) ≤ x ∧ x < 2 ^ (bits - 1)

/-- The value of `fmt.Sprintf("%d", i)`: the decimal rendering of an integer. -/
def sprintfD (i : Int) : String := toString i

/-- The value of `strings.Bytes(s)`: the bytes of an (ASCII) string. -/
def stringsBytes (s : String) : List Nat := s.data.map Char.toNat

/-- An `os.Error` value, identified by its message. -/
abbrev OsError := String

/-- A channel (`chan int`), identified by the serial number of the `make` that created it. -/
abbrev Chan := Nat

/-- A `redis.Client` interface value: `nil`, or the client object created by the
`handle`-th call of `redis.NewSynchClientWithSpec` (every successful call
allocates a new client bound to a new connection). -/
inductive Client where
  | nil
  | conn (handle : Nat)
  deriving DecidableEq, Repr

/-- The store calls the tasks issue through a client. -/
inductive Cmd where
  | Ping
  | Incr (key : String)
  | Decr (key : String)
  | Set (key : String) (value : List Nat)
  | Get (key : String)
  | Lpush (key : String) (value : List Nat)
  | Lpop (key : String)
  | Rpush (key : String) (value : List Nat)
  | Rpop (key : String)
  deriving DecidableEq, Repr

/-- The key argument of a store call (`Ping` has none). -/
def Cmd.key? : Cmd → Option String
  | Cmd.Ping => none
  | Cmd.Incr k => some k
  | Cmd.Decr k => some k
  | Cmd.Set k _ => some k
  | Cmd.Get k => some k
  | Cmd.Lpush k _ => some k
  | Cmd.Lpop k => some k
  | Cmd.Rpush k _ => some k
  | Cmd.Rpop k => some k

/-- What a task goroutine does, one step at a time: a blocking store call on a
client, or a send `signal <- v`. -/
inductive Action where
  | call (client : Client) (cmd : Cmd)
  | send (signal : Chan) (v : Int)
  deriving DecidableEq, Repr

/-- Whether the action is a channel send. -/
def Action.isSend : Action → Bool
  | Action.send _ _ => true
  | Action.call _ _ => false

/-- The key of the store call an action makes, if any. -/
def Action.key? : Action → Option String
  | Action.call _ cmd => cmd.key?
  | Action.send _ _ => none

/-- The keys of the store calls in a run, in order. -/
def keysOf (acts : List Action) : List String := acts.filterMap Action.key?

/-- The store calls in a run, in order. -/
def callsOf (acts : List Action) : List (Client × Cmd) :=
  acts.filterMap fun a => match a with
    | Action.call c cmd => some (c, cmd)
    | Action.send _ _ => none

/-- The channel sends in a run, in order. -/
def sendsOf (acts : List Action) : List (Chan × Int) :=
  acts.filterMap fun a => match a with
    | Action.call _ _ => none
    | Action.send ch v => some (ch, v)

/-! ## The task functions (lines 124-189) -/

/-- The loop `for i := 0; i < cnt; i++ { body }` started at counter `i`, applied to
the actions performed so far.  One unit of `fuel` is spent per test of the
condition; `cnt.toNat + 1` tests always suffice from `i = 0`. -/
def forLoop (cnt : Int) (body : List Action → List Action) : Nat → Int → List Action → List Action
  | 0, _, acts => acts
  | fuel + 1, i, acts => if i < cnt then forLoop cnt body fuel (i + 1) (body acts) else acts

/-- The type `redisTask`: `func(id string, signal chan int, client redis.Client, iterations int)`. -/
abbrev redisTask := String → Chan → Client → Int → List Action

/-- Source function `doPing`. -/
def doPing : redisTask := fun _id signal client cnt =>
  let acts := forLoop cnt (fun a => a ++ [Action.call client Cmd.Ping]) (cnt.toNat + 1) 0 []
  acts ++ [Action.send signal 1]

/-- Source function `doIncr`. -/
def doIncr : redisTask := fun id signal client cnt =>
  let key := "ctr-" ++ id
  let acts := forLoop cnt (fun a => a ++ [Action.call client (Cmd.Incr key)]) (cnt.toNat + 1) 0 []
  acts ++ [Action.send signal 1]

/-- Source function `doDecr`. -/
def doDecr : redisTask := fun id signal client cnt =>
  let key := "ctr-" ++ id
  let acts := forLoop cnt (fun a => a ++ [Action.call client (Cmd.Decr key)]) (cnt.toNat + 1) 0 []
  acts ++ [Action.send signal 1]

/-- Source function `doSet`. -/
def doSet : redisTask := fun id signal client cnt =>
  let key := "set-" ++ id
  let value := stringsBytes "foo"
  let acts := forLoop cnt (fun a => a ++ [Action.call client (Cmd.Set key value)]) (cnt.toNat + 1) 0 []
  acts ++ [Action.send signal 1]

/-- Source function `doGet`. -/
def doGet : redisTask := fun id signal client cnt =>
  let key := "set-" ++ id
  let acts := forLoop cnt (fun a => a ++ [Action.call client (Cmd.Get key)]) (cnt.toNat + 1) 0 []
  acts ++ [Action.send signal 1]

/-- Source function `doLpush`. -/
def doLpush : redisTask := fun id signal client cnt =>
  let key := "list-L-" ++ id
  let value := stringsBytes "foo"
  let acts := forLoop cnt (fun a => a ++ [Action.call client (Cmd.Lpush key value)]) (cnt.toNat + 1) 0 []
  acts ++ [Action.send signal 1]

/-- Source function `doLpop`. -/
def doLpop : redisTask := fun id signal client cnt =>
  let key := "list-L-" ++ id
  let acts := forLoop cnt (fun a => a ++ [Action.call client (Cmd.Lpop key)]) (cnt.toNat + 1) 0 []
  acts ++ [Action.send signal 1]

/-- Source function `doRpush`. -/
def doRpush : redisTask := fun id signal client cnt =>
  let key := "list-R-" ++ id
  let value := stringsBytes "foo"
  let acts := forLoop cnt (fun a => a ++ [Action.call client (Cmd.Rpush key value)]) (cnt.toNat + 1) 0 []
  acts ++ [Action.send signal 1]

/-- Source function `doRpop`; its key is `"list-R" + id`, as in the source (line 184). -/
def doRpop : redisTask := fun id signal client cnt =>
  let key := "list-R" ++ id
  let acts := forLoop cnt (fun a => a ++ [Action.call client (Cmd.Rpop key)]) (cnt.toNat + 1) 0 []
  acts ++ [Action.send signal 1]

/-- The type `taskSpec`. -/
structure taskSpec where
  task : redisTask
  name : String

/-- The catalogue `tasks` (lines 49-59), in order. -/
def tasks : List taskSpec :=
  [ ⟨doPing, "PING"⟩, ⟨doSet, "SET"⟩, ⟨doGet, "GET"⟩, ⟨doIncr, "INCR"⟩, ⟨doDecr, "DECR"⟩,
    ⟨doLpush, "LPUSH"⟩, ⟨doLpop, "LPOP"⟩, ⟨doRpush, "RPUSH"⟩, ⟨doRpop, "RPOP"⟩ ]

/-! ## The environment, and what an execution leaves behind -/

/-- What the program does not determine: the width of `int`, the outcome of each
call of `redis.NewSynchClientWithSpec`, each reading of the clock, and what
`fmt.Printf` prints from a formatting directive on (other than `%%`) that finds
no operand. -/
structure Env where
  intBits : Nat
  connectError : Nat → Option OsError
  nanoseconds : Nat → Int
  fmtNoOperand : List Char → List Char

/-- The observable events of an execution. -/
inductive Event where
  | connected (client : Client)
  | log (text : String)
  | now (t : Int)
  | go (id : String) (signal : Chan) (client : Client) (iterations : Int)
  | call (client : Client) (cmd : Cmd)
  | send (signal : Chan) (v : Int)
  | recv (signal : Chan) (v : Int)
  | quit (client : Client)
  | print (text : String)
  deriving DecidableEq, Repr

/-- Whether the event is the launch of a goroutine. -/
def Event.isGo : Event → Bool
  | Event.go _ _ _ _ => true
  | _ => false

/-- Whether the event is a completed send on a channel. -/
def Event.isSend : Event → Bool
  | Event.send _ _ => true
  | _ => false

/-- Whether the event is a completed receive from a channel. -/
def Event.isRecv : Event → Bool
  | Event.recv _ _ => true
  | _ => false

/-- Whether the event is a reading of the clock. -/
def Event.isNow : Event → Bool
  | Event.now _ => true
  | _ => false

/-- Whether the event is output on standard output. -/
def Event.isPrint : Event → Bool
  | Event.print _ => true
  | _ => false

/-- Whether the event is a successful client construction. -/
def Event.isConnected : Event → Bool
  | Event.connected _ => true
  | _ => false

/-- The texts written to standard output, in order. -/
def printed (tr : List Event) : List String :=
  tr.filterMap fun e => match e with
    | Event.print t => some t
    | _ => none

/-! ## The reporter (lines 114-118) -/

/-- The output of `fmt.Printf(format)` called with a format and no operand, on
characters: text is copied, `%%` prints `%`, and from any other directive on
the output is the environment's. -/
def printfChars (noOperand : List Char → List Char) : List Char → List Char
  | [] => []
  | c :: rest =>
    if c = '%' then
      match rest with
      | [] => noOperand []
      | d :: rest2 => if d = '%' then '%' :: printfChars noOperand rest2 else noOperand (d :: rest2)
    else c :: printfChars noOperand rest

/-- The output of `fmt.Printf(format)` called with a format and no operand. -/
def printf0 (env : Env) (format : String) : String := ⟨printfChars env.fmtNoOperand format.data⟩

/-- Source function `report`: the three texts it prints.  Each `fmt.Sprintf`
result is passed to `fmt.Printf` as the format.  `delta/1000000` is Go's
integer division, which truncates toward zero. -/
def report (env : Env) (cmd : String) (delta : Int) (cnt : Int) : List String :=
  [ printf0 env "---\n",
    printf0 env ("cmd: " ++ cmd ++ "\n"),
    printf0 env (sprintfD cnt ++ " iterations of " ++ cmd ++ " in "
      ++ sprintfD (Int.tdiv delta 1000000) ++ " msecs\n") ]

/-! ## Client construction (lines 100-112) -/

/-- The loop of `makeConcurrentClients` from counter `i`: the client slice, the
error, the number of construction calls made so far and the events. -/
def makeClientsLoop (env : Env) (workers : Int) :
    Nat → Int → List Client → Nat → List Event → (List Client × Option OsError) × Nat × List Event
  | 0, _, clients, conns, tr => ((clients, none), conns, tr)
  | fuel + 1, i, clients, conns, tr =>
    if i < workers then
      match env.connectError conns with
      | some e =>
        (([], some e), conns + 1, tr ++ [Event.log ("Error creating client for worker: " ++ e)])
      | none =>
        makeClientsLoop env workers fuel (i + 1) (clients.set i.toNat (Client.conn conns))
          (conns + 1) (tr ++ [Event.connected (Client.conn conns)])
    else ((clients, none), conns, tr)

/-- Source function `makeConcurrentClients`, started when `conns` construction
calls have been made: `none` when `make([]redis.Client, workers)` panics
(negative length), else the returned `(clients, err)` (the `nil` slice is `[]`),
the new number of construction calls and the events. -/
def makeConcurrentClients (env : Env) (workers : Int) (conns : Nat) :
    Option ((List Client × Option OsError) × Nat × List Event) :=
  if workers < 0 then none
  else some (makeClientsLoop env workers (workers.toNat + 1) 0
    (List.replicate workers.toNat Client.nil) conns [])

/-! ## benchTask (lines 74-98) as a step machine -/

/-- Where the thread that called `benchTask` stands. -/
inductive Pc where
  | entry
  | launch (i : Int)
  | wait (i : Int)
  | stop
  | quit (i : Int)
  | rep
  | ret (delta : Int) (err : Option OsError)
  | crash
  deriving DecidableEq, Repr

/-- The state of one call of `benchTask`: the caller's control point and locals,
the buffer of `signal`, the remaining actions of each launched goroutine, the
counters of the environment, and the events so far. -/
structure State where
  pc : Pc
  signal : Chan
  buf : List Int
  clients : List Client
  t0 : Int
  delta : Int
  procs : List (List Action)
  conns : Nat
  ticks : Nat
  chans : Nat
  trace : List Event
  deriving DecidableEq, Repr

/-- The counters of the environment between calls: construction calls, clock
readings and channels made so far. -/
structure World where
  conns : Nat
  ticks : Nat
  chans : Nat
  deriving DecidableEq, Repr

/-- The state on entry to `benchTask`. -/
def State.init (w : World) : State :=
  { pc := Pc.entry, signal := 0, buf := [], clients := [], t0 := 0, delta := 0, procs := [],
    conns := w.conns, ticks := w.ticks, chans := w.chans, trace := [] }

/-- One step of the thread that called `benchTask`; `none` when it cannot move
(blocked on an empty channel, returned, or crashed). -/
def stepMain (env : Env) (taskspec : taskSpec) (iterations workers : Int) (printReport : Bool)
    (s : State) : Option State :=
  match s.pc with
  | Pc.entry =>
    -- lines 75-80; `make(chan int, workers)` panics on a negative size
    match makeConcurrentClients env workers s.conns with
    | none => some { s with pc := Pc.crash }
    | some ((clients, some e), conns, tr) =>
      some { s with pc := Pc.ret 0 (some e), signal := s.chans, chans := s.chans + 1,
                    clients := clients, conns := conns, trace := s.trace ++ tr }
    | some ((clients, none), conns, tr) =>
      some { s with pc := Pc.launch 0, signal := s.chans, chans := s.chans + 1,
                    clients := clients, conns := conns, t0 := env.nanoseconds s.ticks,
                    ticks := s.ticks + 1,
                    trace := s.trace ++ tr ++ [Event.now (env.nanoseconds s.ticks)] }
  | Pc.launch i =>
    -- lines 81-84
    if i < workers then
      match s.clients[i.toNat]? with
      | none => some { s with pc := Pc.crash }
      | some c =>
        some { s with pc := Pc.launch (i + 1),
                      procs := s.procs ++ [taskspec.task (sprintfD i) s.signal c iterations],
                      trace := s.trace ++ [Event.go (sprintfD i) s.signal c iterations] }
    else some { s with pc := Pc.wait 0 }
  | Pc.wait i =>
    -- lines 85-87; `<-signal` blocks while the buffer is empty
    if i < workers then
      match s.buf with
      | [] => none
      | v :: rest =>
        some { s with pc := Pc.wait (i + 1), buf := rest,
                      trace := s.trace ++ [Event.recv s.signal v] }
    else some { s with pc := Pc.stop }
  | Pc.stop =>
    -- line 88, in int64
    some { s with pc := Pc.quit 0, delta := wrapInt 64 (env.nanoseconds s.ticks - s.t0),
                  ticks := s.ticks + 1, trace := s.trace ++ [Event.now (env.nanoseconds s.ticks)] }
  | Pc.quit i =>
    -- lines 89-91
    if i < workers then
      match s.clients[i.toNat]? with
      | none => some { s with pc := Pc.crash }
      | some c => some { s with pc := Pc.quit (i + 1), trace := s.trace ++ [Event.quit c] }
    else some { s with pc := Pc.rep }
  | Pc.rep =>
    -- lines 93-97
    if printReport then
      some { s with pc := Pc.ret s.delta none,
                    trace := s.trace ++ (report env ("concurrent " ++ taskspec.name) s.delta
                      (wrapInt env.intBits (iterations * workers))).map Event.print }
    else some { s with pc := Pc.ret s.delta none }
  | Pc.ret _ _ => none
  | Pc.crash => none

/-- One step of goroutine `k`; `none` when it has finished, does not exist, or is
blocked on a send (another channel, or the buffer of `signal` is full: its
capacity is `workers`). -/
def stepWorker (workers : Int) (k : Nat) (s : State) : Option State :=
  match s.procs[k]? with
  | none => none
  | some [] => none
  | some (Action.call c cmd :: rest) =>
    some { s with procs := s.procs.set k rest, trace := s.trace ++ [Event.call c cmd] }
  | some (Action.send ch v :: rest) =>
    if ch = s.signal ∧ s.buf.length < workers.toNat then
      some { s with procs := s.procs.set k rest, buf := s.buf ++ [v],
                    trace := s.trace ++ [Event.send ch v] }
    else none

/-- The threads of one call of `benchTask`. -/
inductive Tid where
  | main
  | worker (k : Nat)
  deriving DecidableEq, Repr

/-- One step of the chosen thread. -/
def step (env : Env) (taskspec : taskSpec) (iterations workers : Int) (printReport : Bool)
    (t : Tid) (s : State) : Option State :=
  match t with
  | Tid.main => stepMain env taskspec iterations workers printReport s
  | Tid.worker k => stepWorker workers k s

/-- The execution that follows a schedule; `none` when the schedule picks a
thread that cannot move. -/
def exec (env : Env) (taskspec : taskSpec) (iterations workers : Int) (printReport : Bool) :
    List Tid → State → Option State
  | [], s => some s
  | t :: sched, s =>
    match step env taskspec iterations workers printReport t s with
    | none => none
    | some s2 => exec env taskspec iterations workers printReport sched s2

/-- Source function `benchTask` under a schedule: when the schedule runs the call
to its return, the returned `(delta, err)`, the counters afterwards and the
events of the call. -/
def benchTask (env : Env) (taskspec : taskSpec) (iterations workers : Int) (printReport : Bool)
    (sched : List Tid) (w : World) : Option ((Int × Option OsError) × World × List Event) :=
  match exec env taskspec iterations workers printReport sched (State.init w) with
  | none => none
  | some s =>
    match s.pc with
    | Pc.ret delta err => some ((delta, err), ⟨s.conns, s.ticks, s.chans⟩, s.trace)
    | _ => none

/-! ## The driver (lines 28-34) -/

/-- The loop of `main` over the catalogue, one schedule per call of `benchTask`.
Both results of `benchTask` are discarded by the source; they are kept here,
with the events of each call, only to state theorems about them. -/
def mainLoop (env : Env) (opcnt workers : Int) :
    List taskSpec → List (List Tid) → World →
      Option (List ((Int × Option OsError) × List Event) × World)
  | [], _, w => some ([], w)
  | task :: rest, scheds, w =>
    match benchTask env task opcnt workers true (scheds.headD []) w with
    | none => none
    | some (r, w2, tr) =>
      match mainLoop env opcnt workers rest scheds.tail w2 with
      | none => none
      | some (rs, w3) => some ((r, tr) :: rs, w3)

/-- The banner `main` prints first. -/
def banner (opcnt workers : Int) : String :=
  "\n\n=== Bench synchclient ================ " ++ sprintfD workers
    ++ " Concurrent Clients -- " ++ sprintfD opcnt ++ " opts each --- \n\n"

/-- Source function `main` with the parsed flags `-n` and `-w`: when every call
of `benchTask` returns, the events of the run and the record of the calls. -/
def main (env : Env) (opcnt workers : Int) (scheds : List (List Tid)) (w : World) :
    Option (List Event × List ((Int × Option OsError) × List Event)) :=
  match mainLoop env opcnt workers tasks scheds w with
  | none => none
  | some (rs, _) => some (Event.print (banner opcnt workers) :: (rs.map Prod.snd).flatten, rs)

/-! ## Decimal rendering is injective -/

/-- The number a list of decimal digit characters denotes, continuing from `init`. -/
def decimalValue (l : List Char) (init : Nat) : Nat :=
  l.foldl (fun a c => 10 * a + (c.toNat - 48)) init

/-! ## Executions -/

/-- The sends that the launched goroutines have still to perform. -/
def pending (procs : List (List Action)) : Nat :=
  (procs.map fun p => p.countP Action.isSend).sum

/-- The number of completed sends in a trace. -/
def nSend (tr : List Event) : Nat := tr.countP Event.isSend

/-- The number of completed receives in a trace. -/
def nRecv (tr : List Event) : Nat := tr.countP Event.isRecv

/-- The number of clock readings in a trace. -/
def nNow (tr : List Event) : Nat := tr.countP Event.isNow

/-- The events of a trace that launch a goroutine. -/
def launches (tr : List Event) : List Event := tr.filter Event.isGo

/-- Events of client construction: a constructed client, or the log line of a failure. -/
def Event.isSetup : Event → Bool
  | Event.connected _ => true
  | Event.log _ => true
  | _ => false

/-! ## The completion barrier -/

/-- What holds at each control point of `benchTask`, in terms of the goroutines
launched, the tokens received and the clock readings and output so far. -/
def pcInv (W : Int) (s : State) : Pc → Prop
  | Pc.entry => s.procs = [] ∧ s.trace = []
  | Pc.launch i => 0 ≤ i ∧ i ≤ W ∧ (s.procs.length : Int) = i ∧ nRecv s.trace = 0
      ∧ nNow s.trace = 1 ∧ printed s.trace = []
  | Pc.wait i => 0 ≤ i ∧ i ≤ W ∧ s.procs.length = W.toNat ∧ (nRecv s.trace : Int) = i
      ∧ nNow s.trace = 1 ∧ printed s.trace = []
  | Pc.stop => s.procs.length = W.toNat ∧ nRecv s.trace = W.toNat
      ∧ nNow s.trace = 1 ∧ printed s.trace = []
  | Pc.quit _ => s.procs.length = W.toNat ∧ nRecv s.trace = W.toNat ∧ printed s.trace = []
  | Pc.rep => s.procs.length = W.toNat ∧ nRecv s.trace = W.toNat ∧ printed s.trace = []
  | Pc.ret _ none => s.procs.length = W.toNat ∧ nRecv s.trace = W.toNat
  | Pc.ret _ (some _) => s.procs = [] ∧ nNow s.trace = 0 ∧ printed s.trace = []
  | Pc.crash => printed s.trace = []
      ∧ (2 ≤ nNow s.trace → s.procs.length = W.toNat ∧ nRecv s.trace = W.toNat)

/-- The invariant of the completion barrier: every launched goroutine has sent
its token or has exactly one send left, every token sent is buffered or
received, and the control point agrees with the counts. -/
def BarrierInv (W : Int) (s : State) : Prop :=
  nSend s.trace + pending s.procs = s.procs.length
  ∧ s.buf.length + nRecv s.trace = nSend s.trace
  ∧ s.procs.length ≤ W.toNat
  ∧ pcInv W s s.pc

/-- The environment of the examples: 32-bit `int`, no connection error, a clock
that advances one millisecond per reading. -/
def envOk : Env := ⟨32, fun _ => none, fun n => 1000000 * n, fun _ => []⟩

/-- Two INCR workers of one iteration each: the state after the launches, the run
of worker 1 and the first receive. -/
def barrierMid1 : State :=
  { pc := Pc.wait 1, signal := 0, buf := [],
    clients := [Client.conn 0, Client.conn 1], t0 := 0, delta := 0,
    procs := [[Action.call (Client.conn 0) (Cmd.Incr "ctr-0"), Action.send 0 1], []],
    conns := 2, ticks := 1, chans := 1,
    trace := [Event.connected (Client.conn 0), Event.connected (Client.conn 1), Event.now 0,
      Event.go "0" 0 (Client.conn 0) 1, Event.go "1" 0 (Client.conn 1) 1,
      Event.call (Client.conn 1) (Cmd.Incr "ctr-1"), Event.send 0 1, Event.recv 0 1] }

/-- Two INCR workers of one iteration each: the state after the run of worker 0,
the second receive and the second clock reading. -/
def barrierMid2 : State :=
  { pc := Pc.quit 0, signal := 0, buf := [],
    clients := [Client.conn 0, Client.conn 1], t0 := 0, delta := 1000000, procs := [[], []],
    conns := 2, ticks := 2, chans := 1,
    trace := [Event.connected (Client.conn 0), Event.connected (Client.conn 1), Event.now 0,
      Event.go "0" 0 (Client.conn 0) 1, Event.go "1" 0 (Client.conn 1) 1,
      Event.call (Client.conn 1) (Cmd.Incr "ctr-1"), Event.send 0 1, Event.recv 0 1,
      Event.call (Client.conn 0) (Cmd.Incr "ctr-0"), Event.send 0 1, Event.recv 0 1,
      Event.now 1000000] }

/-- Two INCR workers of one iteration each: the state in which `benchTask` returns. -/
def barrierExample : State :=
  { pc := Pc.ret 1000000 none, signal := 0, buf := [],
    clients := [Client.conn 0, Client.conn 1], t0 := 0, delta := 1000000, procs := [[], []],
    conns := 2, ticks := 2, chans := 1,
    trace := [Event.connected (Client.conn 0), Event.connected (Client.conn 1), Event.now 0,
      Event.go "0" 0 (Client.conn 0) 1, Event.go "1" 0 (Client.conn 1) 1,
      Event.call (Client.conn 1) (Cmd.Incr "ctr-1"), Event.send 0 1, Event.recv 0 1,
      Event.call (Client.conn 0) (Cmd.Incr "ctr-0"), Event.send 0 1, Event.recv 0 1,
      Event.now 1000000, Event.quit (Client.conn 0), Event.quit (Client.conn 1),
      Event.print "---\n", Event.print "cmd: concurrent INCR\n",
      Event.print "2 iterations of concurrent INCR in 1 msecs\n"] }

/-! ## Client construction -/

/-- The clients made by `n` successful construction calls from call number `conns` on. -/
def freshClients (conns n : Nat) : List Client :=
  (List.range n).map fun j => Client.conn (conns + j)

/-- The construction events of `n` successful construction calls from call number `conns` on. -/
def connectedEvents (conns n : Nat) : List Event :=
  (List.range n).map fun j => Event.connected (Client.conn (conns + j))

/-- The state `benchTask` returns in when the `k`-th client construction fails with `e`. -/
def failedState (w : World) (k : Nat) (e : OsError) : State :=
  { State.init w with
    pc := Pc.ret 0 (some e), signal := w.chans, chans := w.chans + 1, clients := [],
    conns := w.conns + k + 1,
    trace := connectedEvents w.conns k ++ [Event.log ("Error creating client for worker: " ++ e)] }

/-! ## Launching the workers -/

/-- The launch events of workers `0 .. n-1`: worker `j` gets the decimal rendering
of `j`, the signal, the client of the `j`-th construction call and the
iteration count. -/
def goEvents (iterations : Int) (signal : Chan) (conns n : Nat) : List Event :=
  (List.range n).map fun (j : Nat) =>
    Event.go (sprintfD (j : Int)) signal (Client.conn (conns + j)) iterations

/-- The successful client constructions of a trace. -/
def constructed (tr : List Event) : List Event := tr.filter Event.isConnected

/-- What holds at each control point when every client construction succeeds. -/
def launchPc (iterations W : Int) (w : World) (s : State) : Pc → Prop
  | Pc.entry => s = State.init w
  | Pc.launch i => 0 ≤ i ∧ i ≤ W ∧ launches s.trace = goEvents iterations w.chans w.conns i.toNat
  | Pc.wait _ => launches s.trace = goEvents iterations w.chans w.conns W.toNat
  | Pc.stop => launches s.trace = goEvents iterations w.chans w.conns W.toNat
  | Pc.quit i => 0 ≤ i ∧ launches s.trace = goEvents iterations w.chans w.conns W.toNat
  | Pc.rep => launches s.trace = goEvents iterations w.chans w.conns W.toNat
  | Pc.ret _ none => launches s.trace = goEvents iterations w.chans w.conns W.toNat
  | Pc.ret _ (some _) => False
  | Pc.crash => False

/-- The invariant of the launch loop when every client construction succeeds. -/
def LaunchInv (spec : taskSpec) (iterations W : Int) (w : World) (s : State) : Prop :=
  launchPc iterations W w s s.pc
  ∧ s.procs.length = (launches s.trace).length
  ∧ (s.pc ≠ Pc.entry →
      s.clients = freshClients w.conns W.toNat ∧ s.signal = w.chans
      ∧ constructed s.trace = connectedEvents w.conns W.toNat)
  ∧ ∀ (j : Nat) (p : List Action), s.procs[j]? = some p →
      p <:+ spec.task (sprintfD (j : Int)) w.chans (Client.conn (w.conns + j)) iterations

/-! # Theorems -/

/-! ## The task functions: what a goroutine does -/

theorem forLoop_append (cnt : Int) (a : Action) :
    ∀ (fuel : Nat) (i : Int) (acts : List Action), (cnt - i).toNat ≤ fuel →
      forLoop cnt (fun l => l ++ [a]) fuel i acts = acts ++ List.replicate (cnt - i).toNat a := by
  intro fuel
  induction fuel with
  | zero =>
    intro i acts h
    have h0 : (cnt - i).toNat = 0 := by omega
    simp [forLoop, h0]
  | succ fuel ih =>
    intro i acts h
    unfold forLoop
    by_cases hlt : i < cnt
    · have h1 : (cnt - i).toNat = (cnt - (i + 1)).toNat + 1 := by omega
      rw [if_pos hlt, ih (i + 1) (acts ++ [a]) (by omega), h1, List.replicate_succ]
      simp
    · have h0 : (cnt - i).toNat = 0 := by omega
      rw [if_neg hlt, h0]
      simp

theorem forLoop_zero (cnt : Int) (a : Action) :
    forLoop cnt (fun l => l ++ [a]) (cnt.toNat + 1) 0 [] = List.replicate cnt.toNat a := by
  rw [forLoop_append cnt a (cnt.toNat + 1) 0 [] (by omega)]
  simp

theorem doPing_eq (id : String) (signal : Chan) (client : Client) (cnt : Int) :
    doPing id signal client cnt
      = List.replicate cnt.toNat (Action.call client Cmd.Ping) ++ [Action.send signal 1] := by
  simp only [doPing, forLoop_zero]

theorem doIncr_eq (id : String) (signal : Chan) (client : Client) (cnt : Int) :
    doIncr id signal client cnt
      = List.replicate cnt.toNat (Action.call client (Cmd.Incr ("ctr-" ++ id)))
        ++ [Action.send signal 1] := by
  simp only [doIncr, forLoop_zero]

theorem doDecr_eq (id : String) (signal : Chan) (client : Client) (cnt : Int) :
    doDecr id signal client cnt
      = List.replicate cnt.toNat (Action.call client (Cmd.Decr ("ctr-" ++ id)))
        ++ [Action.send signal 1] := by
  simp only [doDecr, forLoop_zero]

theorem doSet_eq (id : String) (signal : Chan) (client : Client) (cnt : Int) :
    doSet id signal client cnt
      = List.replicate cnt.toNat (Action.call client (Cmd.Set ("set-" ++ id) (stringsBytes "foo")))
        ++ [Action.send signal 1] := by
  simp only [doSet, forLoop_zero]

theorem doGet_eq (id : String) (signal : Chan) (client : Client) (cnt : Int) :
    doGet id signal client cnt
      = List.replicate cnt.toNat (Action.call client (Cmd.Get ("set-" ++ id)))
        ++ [Action.send signal 1] := by
  simp only [doGet, forLoop_zero]

theorem doLpush_eq (id : String) (signal : Chan) (client : Client) (cnt : Int) :
    doLpush id signal client cnt
      = List.replicate cnt.toNat
          (Action.call client (Cmd.Lpush ("list-L-" ++ id) (stringsBytes "foo")))
        ++ [Action.send signal 1] := by
  simp only [doLpush, forLoop_zero]

theorem doLpop_eq (id : String) (signal : Chan) (client : Client) (cnt : Int) :
    doLpop id signal client cnt
      = List.replicate cnt.toNat (Action.call client (Cmd.Lpop ("list-L-" ++ id)))
        ++ [Action.send signal 1] := by
  simp only [doLpop, forLoop_zero]

theorem doRpush_eq (id : String) (signal : Chan) (client : Client) (cnt : Int) :
    doRpush id signal client cnt
      = List.replicate cnt.toNat
          (Action.call client (Cmd.Rpush ("list-R-" ++ id) (stringsBytes "foo")))
        ++ [Action.send signal 1] := by
  simp only [doRpush, forLoop_zero]

theorem doRpop_eq (id : String) (signal : Chan) (client : Client) (cnt : Int) :
    doRpop id signal client cnt
      = List.replicate cnt.toNat (Action.call client (Cmd.Rpop ("list-R" ++ id)))
        ++ [Action.send signal 1] := by
  simp only [doRpop, forLoop_zero]

/-- The keys of a run of `n` calls of one keyed command followed by a send. -/
theorem keysOf_run (c : Client) (cmd : Cmd) (k : String) (hk : cmd.key? = some k) (n : Nat)
    (signal : Chan) (v : Int) :
    keysOf (List.replicate n (Action.call c cmd) ++ [Action.send signal v])
      = List.replicate n k := by
  induction n with
  | zero => simp [keysOf, Action.key?]
  | succ n ih =>
    simp only [keysOf] at ih
    simp [keysOf, List.replicate_succ, Action.key?, hk, ih]

/-- Every task of the catalogue is a run of calls of one command followed by one send of `1`
on the signal it was given. -/
theorem tasks_shape (spec : taskSpec) (h : spec ∈ tasks) (id : String) :
    ∃ cmd : Cmd, ∀ (signal : Chan) (client : Client) (cnt : Int),
      spec.task id signal client cnt
        = List.replicate cnt.toNat (Action.call client cmd) ++ [Action.send signal 1] := by
  simp only [tasks, List.mem_cons, List.mem_singleton, List.not_mem_nil, or_false] at h
  rcases h with h | h | h | h | h | h | h | h | h <;> subst h
  · exact ⟨_, fun s c n => doPing_eq id s c n⟩
  · exact ⟨_, fun s c n => doSet_eq id s c n⟩
  · exact ⟨_, fun s c n => doGet_eq id s c n⟩
  · exact ⟨_, fun s c n => doIncr_eq id s c n⟩
  · exact ⟨_, fun s c n => doDecr_eq id s c n⟩
  · exact ⟨_, fun s c n => doLpush_eq id s c n⟩
  · exact ⟨_, fun s c n => doLpop_eq id s c n⟩
  · exact ⟨_, fun s c n => doRpush_eq id s c n⟩
  · exact ⟨_, fun s c n => doRpop_eq id s c n⟩

theorem digitChar_toNat (d : Nat) (h : d < 10) : (Nat.digitChar d).toNat - 48 = d := by
  interval_cases d <;> rfl

theorem decimalValue_toDigitsCore :
    ∀ (fuel n : Nat) (acc : List Char), n < fuel →
      decimalValue (Nat.toDigitsCore 10 fuel n acc) 0 = decimalValue acc n := by
  intro fuel
  induction fuel with
  | zero => intro n acc h; omega
  | succ fuel ih =>
    intro n acc h
    unfold Nat.toDigitsCore
    by_cases h0 : n / 10 = 0
    · simp only [h0, if_true]
      have hn : n < 10 := by omega
      simp [decimalValue, digitChar_toNat n hn, Nat.mod_eq_of_lt hn]
    · simp only [h0, if_false]
      rw [ih (n / 10) _ (by omega)]
      simp only [decimalValue, List.foldl_cons, digitChar_toNat (n % 10) (Nat.mod_lt _ (by decide))]
      congr 1
      omega

theorem decimalValue_repr (n : Nat) : decimalValue (Nat.repr n).data 0 = n := by
  simp only [Nat.repr, Nat.toDigits, List.asString]
  exact decimalValue_toDigitsCore (n + 1) n [] (by omega)

theorem sprintfD_natCast (n : Nat) : sprintfD (n : Int) = Nat.repr n := rfl

/-- Distinct natural numbers have distinct decimal renderings. -/
theorem sprintfD_injective (i j : Nat) (h : sprintfD (i : Int) = sprintfD (j : Int)) : i = j := by
  rw [sprintfD_natCast, sprintfD_natCast] at h
  have := congrArg (fun s : String => decimalValue s.data 0) h
  simpa [decimalValue_repr] using this

theorem string_append_left_cancel (p a b : String) (h : p ++ a = p ++ b) : a = b := by
  have := congrArg String.data h
  simp only [String.data_append] at this
  exact String.ext (List.append_cancel_left this)

example : sprintfD (12 : Nat) = "12" := by decide

/-! ## Keys -/

theorem listL_ne_listR (id : String) : "list-L-" ++ id ≠ "list-R-" ++ id := by
  intro h
  have h2 := congrArg (fun s : String => s.data[5]?) h
  simp [String.data_append] at h2

theorem listL_ne_listR_undelimited (id : String) : "list-L-" ++ id ≠ "list-R" ++ id := by
  intro h
  have h2 := congrArg (fun s : String => s.data[5]?) h
  simp [String.data_append] at h2

theorem listR_undelimited_ne (id : String) : "list-R" ++ id ≠ "list-R-" ++ id := by
  intro h
  have h2 := congrArg String.length h
  simp [String.length_append] at h2
  have : "list-R".length = 6 := by decide
  have : "list-R-".length = 7 := by decide
  omega

theorem keysOf_doSet (id : String) (signal : Chan) (client : Client) (cnt : Int) :
    keysOf (doSet id signal client cnt) = List.replicate cnt.toNat ("set-" ++ id) := by
  rw [doSet_eq]; apply keysOf_run; rfl

theorem keysOf_doGet (id : String) (signal : Chan) (client : Client) (cnt : Int) :
    keysOf (doGet id signal client cnt) = List.replicate cnt.toNat ("set-" ++ id) := by
  rw [doGet_eq]; apply keysOf_run; rfl

theorem keysOf_doIncr (id : String) (signal : Chan) (client : Client) (cnt : Int) :
    keysOf (doIncr id signal client cnt) = List.replicate cnt.toNat ("ctr-" ++ id) := by
  rw [doIncr_eq]; apply keysOf_run; rfl

theorem keysOf_doDecr (id : String) (signal : Chan) (client : Client) (cnt : Int) :
    keysOf (doDecr id signal client cnt) = List.replicate cnt.toNat ("ctr-" ++ id) := by
  rw [doDecr_eq]; apply keysOf_run; rfl

theorem keysOf_doLpush (id : String) (signal : Chan) (client : Client) (cnt : Int) :
    keysOf (doLpush id signal client cnt) = List.replicate cnt.toNat ("list-L-" ++ id) := by
  rw [doLpush_eq]; apply keysOf_run; rfl

theorem keysOf_doLpop (id : String) (signal : Chan) (client : Client) (cnt : Int) :
    keysOf (doLpop id signal client cnt) = List.replicate cnt.toNat ("list-L-" ++ id) := by
  rw [doLpop_eq]; apply keysOf_run; rfl

theorem keysOf_doRpush (id : String) (signal : Chan) (client : Client) (cnt : Int) :
    keysOf (doRpush id signal client cnt) = List.replicate cnt.toNat ("list-R-" ++ id) := by
  rw [doRpush_eq]; apply keysOf_run; rfl

theorem keysOf_doRpop (id : String) (signal : Chan) (client : Client) (cnt : Int) :
    keysOf (doRpop id signal client cnt) = List.replicate cnt.toNat ("list-R" ++ id) := by
  rw [doRpop_eq]; apply keysOf_run; rfl

/-! ## Claims about the task functions -/

/-- C4: for every task of the catalogue and every worker identity there is one
store command (operation and key) such that, for every signal, client and
iteration count, the task performs exactly `iterations` calls of that command
(none when `iterations` is zero or negative) and then exactly one send, of `1`,
on the signal: the run is the calls followed by the send. -/
theorem task_performs_iterations_then_one_token (spec : taskSpec) (h : spec ∈ tasks)
    (id : String) :
    ∃ cmd : Cmd, ∀ (signal : Chan) (client : Client) (iterations : Int),
      spec.task id signal client iterations
          = List.replicate iterations.toNat (Action.call client cmd) ++ [Action.send signal 1]
        ∧ callsOf (spec.task id signal client iterations)
            = List.replicate iterations.toNat (client, cmd)
        ∧ (0 ≤ iterations →
            ((callsOf (spec.task id signal client iterations)).length : Int) = iterations)
        ∧ sendsOf (spec.task id signal client iterations) = [(signal, 1)] := by
  obtain ⟨cmd, hcmd⟩ := tasks_shape spec h id
  refine ⟨cmd, fun signal client iterations => ?_⟩
  have hcalls : callsOf (spec.task id signal client iterations)
      = List.replicate iterations.toNat (client, cmd) := by
    rw [hcmd]
    generalize iterations.toNat = n
    induction n with
    | zero => simp [callsOf]
    | succ n ih =>
      simp only [callsOf] at ih
      simp [callsOf, List.replicate_succ, ih]
  refine ⟨hcmd signal client iterations, hcalls, ?_, ?_⟩
  · intro h0
    rw [hcalls, List.length_replicate]
    omega
  · rw [hcmd]
    generalize iterations.toNat = n
    induction n with
    | zero => simp [sendsOf]
    | succ n ih =>
      simp only [sendsOf] at ih
      simp [sendsOf, List.replicate_succ, ih]

theorem task_performs_iterations_then_one_token_witness :
    (⟨doIncr, "INCR"⟩ : taskSpec) ∈ tasks ∧
    ∃ cmd : Cmd, ∀ (signal : Chan) (client : Client) (iterations : Int),
      doIncr "2" signal client iterations
          = List.replicate iterations.toNat (Action.call client cmd) ++ [Action.send signal 1]
        ∧ callsOf (doIncr "2" signal client iterations)
            = List.replicate iterations.toNat (client, cmd)
        ∧ (0 ≤ iterations →
            ((callsOf (doIncr "2" signal client iterations)).length : Int) = iterations)
        ∧ sendsOf (doIncr "2" signal client iterations) = [(signal, 1)] :=
  ⟨by simp [tasks],
   task_performs_iterations_then_one_token ⟨doIncr, "INCR"⟩ (by simp [tasks]) "2"⟩

/-- C3: for every key-using task of the catalogue (every task but PING) and every
two distinct worker indices `i` and `j`, worker `i` uses one key `ki` in all its
calls, worker `j` one key `kj`, and `ki` differs from `kj`. -/
theorem key_injective_in_worker_identity (spec : taskSpec) (h : spec ∈ tasks)
    (hkey : spec.name ≠ "PING") (i j : Nat) (hij : i ≠ j) :
    ∃ ki kj : String, ki ≠ kj
      ∧ (∀ (signal : Chan) (client : Client) (cnt : Int),
          keysOf (spec.task (sprintfD i) signal client cnt) = List.replicate cnt.toNat ki)
      ∧ (∀ (signal : Chan) (client : Client) (cnt : Int),
          keysOf (spec.task (sprintfD j) signal client cnt) = List.replicate cnt.toNat kj) := by
  have hne : ∀ p : String, p ++ sprintfD i ≠ p ++ sprintfD j := fun p hp =>
    hij (sprintfD_injective i j (string_append_left_cancel p _ _ hp))
  simp only [tasks, List.mem_cons, List.mem_singleton, List.not_mem_nil, or_false] at h
  rcases h with h | h | h | h | h | h | h | h | h <;> subst h
  · exact absurd rfl hkey
  · exact ⟨_, _, hne "set-", fun s c n => keysOf_doSet _ s c n,
      fun s c n => keysOf_doSet _ s c n⟩
  · exact ⟨_, _, hne "set-", fun s c n => keysOf_doGet _ s c n,
      fun s c n => keysOf_doGet _ s c n⟩
  · exact ⟨_, _, hne "ctr-", fun s c n => keysOf_doIncr _ s c n,
      fun s c n => keysOf_doIncr _ s c n⟩
  · exact ⟨_, _, hne "ctr-", fun s c n => keysOf_doDecr _ s c n,
      fun s c n => keysOf_doDecr _ s c n⟩
  · exact ⟨_, _, hne "list-L-", fun s c n => keysOf_doLpush _ s c n,
      fun s c n => keysOf_doLpush _ s c n⟩
  · exact ⟨_, _, hne "list-L-", fun s c n => keysOf_doLpop _ s c n,
      fun s c n => keysOf_doLpop _ s c n⟩
  · exact ⟨_, _, hne "list-R-", fun s c n => keysOf_doRpush _ s c n,
      fun s c n => keysOf_doRpush _ s c n⟩
  · exact ⟨_, _, hne "list-R", fun s c n => keysOf_doRpop _ s c n,
      fun s c n => keysOf_doRpop _ s c n⟩

theorem key_injective_in_worker_identity_witness :
    (⟨doRpop, "RPOP"⟩ : taskSpec) ∈ tasks ∧ (⟨doRpop, "RPOP"⟩ : taskSpec).name ≠ "PING"
    ∧ (1 : Nat) ≠ 11 ∧
    ∃ ki kj : String, ki ≠ kj
      ∧ (∀ (signal : Chan) (client : Client) (cnt : Int),
          keysOf (doRpop (sprintfD (1 : Nat)) signal client cnt) = List.replicate cnt.toNat ki)
      ∧ (∀ (signal : Chan) (client : Client) (cnt : Int),
          keysOf (doRpop (sprintfD (11 : Nat)) signal client cnt) = List.replicate cnt.toNat kj) :=
  ⟨by simp [tasks], by decide, by decide,
   key_injective_in_worker_identity ⟨doRpop, "RPOP"⟩ (by simp [tasks]) (by decide) 1 11
     (by decide)⟩

/-- C9: for every worker identity the one key of the left-list tasks (LPUSH and
LPOP use the same) differs from the key of RPUSH and from the key of RPOP. -/
theorem left_and_right_list_keys_differ (id : String) :
    ∃ kl kr kr2 : String, kl ≠ kr ∧ kl ≠ kr2
      ∧ (∀ (signal : Chan) (client : Client) (cnt : Int),
          keysOf (doLpush id signal client cnt) = List.replicate cnt.toNat kl)
      ∧ (∀ (signal : Chan) (client : Client) (cnt : Int),
          keysOf (doLpop id signal client cnt) = List.replicate cnt.toNat kl)
      ∧ (∀ (signal : Chan) (client : Client) (cnt : Int),
          keysOf (doRpush id signal client cnt) = List.replicate cnt.toNat kr)
      ∧ (∀ (signal : Chan) (client : Client) (cnt : Int),
          keysOf (doRpop id signal client cnt) = List.replicate cnt.toNat kr2) :=
  ⟨"list-L-" ++ id, "list-R-" ++ id, "list-R" ++ id, listL_ne_listR id,
    listL_ne_listR_undelimited id,
    fun s c n => keysOf_doLpush _ s c n,
    fun s c n => keysOf_doLpop _ s c n,
    fun s c n => keysOf_doRpush _ s c n,
    fun s c n => keysOf_doRpop _ s c n⟩

/-- C8: the key of the RPOP task is `"list-R" ++ id`, without the delimiter,
which is never the key `"list-R-" ++ id` of the RPUSH task; for identity `"0"`
RPOP pops `list-R0` while RPUSH pushes to `list-R-0`. -/
theorem rpop_key_is_not_rpush_key :
    keysOf (doRpop "0" 0 (Client.conn 0) 1) = ["list-R0"]
    ∧ keysOf (doRpush "0" 0 (Client.conn 0) 1) = ["list-R-0"]
    ∧ ∀ (id : String) (signal : Chan) (client : Client) (cnt : Int),
        keysOf (doRpop id signal client cnt) = List.replicate cnt.toNat ("list-R" ++ id)
        ∧ keysOf (doRpush id signal client cnt) = List.replicate cnt.toNat ("list-R-" ++ id)
        ∧ "list-R" ++ id ≠ "list-R-" ++ id :=
  ⟨by decide, by decide, fun id s c n =>
    ⟨keysOf_doRpop id s c n,
     keysOf_doRpush id s c n,
     listR_undelimited_ne id⟩⟩

theorem exec_append (env : Env) (spec : taskSpec) (its W : Int) (pr : Bool) :
    ∀ (s1 s2 : List Tid) (st : State),
      exec env spec its W pr (s1 ++ s2) st
        = (exec env spec its W pr s1 st).bind (exec env spec its W pr s2) := by
  intro s1
  induction s1 with
  | nil => intro s2 st; simp [exec]
  | cons t s1 ih =>
    intro s2 st
    simp only [List.cons_append, exec]
    cases step env spec its W pr t st with
    | none => simp
    | some st2 => simpa using ih s2 st2

/-- A property that holds initially and is kept by every step holds after every schedule. -/
theorem exec_induction (env : Env) (spec : taskSpec) (its W : Int) (pr : Bool)
    (P : State → Prop)
    (hstep : ∀ t s s2, P s → step env spec its W pr t s = some s2 → P s2) :
    ∀ (sched : List Tid) (s s2 : State), P s → exec env spec its W pr sched s = some s2 → P s2 := by
  intro sched
  induction sched with
  | nil =>
    intro s s2 hP h
    simp only [exec, Option.some.injEq] at h
    exact h ▸ hP
  | cons t sched ih =>
    intro s s2 hP h
    simp only [exec] at h
    cases hs : step env spec its W pr t s with
    | none => simp [hs] at h
    | some s1 =>
      simp only [hs] at h
      exact ih s1 s2 (hstep t s s1 hP hs) h

theorem makeClientsLoop_setup (env : Env) (W : Int) :
    ∀ (fuel : Nat) (i : Int) (cl : List Client) (conns : Nat) (tr : List Event),
      (∀ e ∈ tr, e.isSetup = true) →
      ∀ e ∈ (makeClientsLoop env W fuel i cl conns tr).2.2, e.isSetup = true := by
  intro fuel
  induction fuel with
  | zero => intro i cl conns tr h; simpa [makeClientsLoop] using h
  | succ fuel ih =>
    intro i cl conns tr h
    unfold makeClientsLoop
    split
    · split
      · intro e he
        simp only [List.mem_append, List.mem_singleton] at he
        rcases he with he | he
        · exact h e he
        · subst he; rfl
      · apply ih
        intro e he
        simp only [List.mem_append, List.mem_singleton] at he
        rcases he with he | he
        · exact h e he
        · subst he; rfl
    · exact h

theorem makeConcurrentClients_setup (env : Env) (W : Int) (conns : Nat)
    (r : (List Client × Option OsError) × Nat × List Event)
    (h : makeConcurrentClients env W conns = some r) : ∀ e ∈ r.2.2, e.isSetup = true := by
  unfold makeConcurrentClients at h
  split at h
  · simp at h
  · simp only [Option.some.injEq] at h
    subst h
    exact makeClientsLoop_setup env W _ _ _ _ _ (by simp)

theorem setup_counts (tr : List Event) (h : ∀ e ∈ tr, e.isSetup = true) :
    nSend tr = 0 ∧ nRecv tr = 0 ∧ nNow tr = 0 ∧ printed tr = [] ∧ launches tr = [] := by
  induction tr with
  | nil => simp [nSend, nRecv, nNow, printed, launches]
  | cons e tr ih =>
    have he := h e (List.mem_cons_self _ _)
    have ih2 := ih (fun x hx => h x (List.mem_cons_of_mem _ hx))
    simp only [nSend, nRecv, nNow, printed, launches] at ih2 ⊢
    obtain ⟨h1, h2, h3, h4, h5⟩ := ih2
    cases e <;> simp_all [Event.isSetup, Event.isSend, Event.isRecv, Event.isNow, Event.isGo]

theorem pending_append (ps : List (List Action)) (p : List Action) :
    pending (ps ++ [p]) = pending ps + p.countP Action.isSend := by
  simp [pending]

theorem pending_set (ps : List (List Action)) (k : Nat) (a : Action) (rest : List Action)
    (h : ps[k]? = some (a :: rest)) :
    pending (ps.set k rest) + (if a.isSend then 1 else 0) = pending ps := by
  induction ps generalizing k with
  | nil => simp at h
  | cons p ps ih =>
    cases k with
    | zero =>
      simp only [List.getElem?_cons_zero, Option.some.injEq] at h
      subst h
      simp only [List.set_cons_zero, pending, List.map_cons, List.sum_cons, List.countP_cons]
      omega
    | succ k =>
      simp only [List.getElem?_cons_succ] at h
      have := ih k h
      simp only [List.set_cons_succ, pending, List.map_cons, List.sum_cons] at this ⊢
      omega

theorem task_one_send (spec : taskSpec) (h : spec ∈ tasks) (id : String) (signal : Chan)
    (c : Client) (n : Int) : (spec.task id signal c n).countP Action.isSend = 1 := by
  obtain ⟨cmd, hcmd⟩ := tasks_shape spec h id
  rw [hcmd]
  simp [List.countP_append, List.countP_replicate, Action.isSend]

theorem barrierInv_init (W : Int) (w : World) : BarrierInv W (State.init w) := by
  simp [BarrierInv, State.init, pcInv, nSend, nRecv, pending]

theorem barrierInv_stepWorker (W : Int) (k : Nat) (s s2 : State)
    (hinv : BarrierInv W s) (h : stepWorker W k s = some s2) : BarrierInv W s2 := by
  obtain ⟨h1, h2, h3, h4⟩ := hinv
  unfold stepWorker at h
  split at h
  · simp at h
  · simp at h
  · rename_i c cmd rest hk
    simp only [Option.some.injEq] at h
    subst h
    have hp := pending_set s.procs k _ _ hk
    simp [Action.isSend] at hp
    refine ⟨?_, ?_, ?_, ?_⟩
    · simp only [nSend, List.countP_append, List.length_set] at h1 ⊢
      simp [Event.isSend]
      omega
    · simp only [nSend, nRecv, List.countP_append] at h2 ⊢
      simp [Event.isSend, Event.isRecv]
      omega
    · simpa using h3
    · cases hpc : s.pc with
      | ret d e => cases e <;> simp_all [pcInv, nRecv, nNow, printed, Event.isRecv, Event.isNow]
      | _ => simp_all [pcInv, nRecv, nNow, printed, Event.isRecv, Event.isNow]
  · rename_i ch v rest hk
    split at h
    · simp only [Option.some.injEq] at h
      subst h
      have hp := pending_set s.procs k _ _ hk
      simp [Action.isSend] at hp
      refine ⟨?_, ?_, ?_, ?_⟩
      · simp only [nSend, List.countP_append, List.length_set] at h1 ⊢
        simp [Event.isSend]
        omega
      · simp only [nSend, nRecv, List.countP_append] at h2 ⊢
        simp [Event.isSend, Event.isRecv]
        omega
      · simpa using h3
      · cases hpc : s.pc with
        | ret d e => cases e <;> simp_all [pcInv, nRecv, nNow, printed, Event.isRecv, Event.isNow]
        | _ => simp_all [pcInv, nRecv, nNow, printed, Event.isRecv, Event.isNow]
    · simp at h

theorem barrierInv_stepMain (env : Env) (spec : taskSpec) (its W : Int) (pr : Bool)
    (hsend : ∀ id signal c n, (spec.task id signal c n).countP Action.isSend = 1)
    (s s2 : State) (hinv : BarrierInv W s)
    (h : stepMain env spec its W pr s = some s2) : BarrierInv W s2 := by
  obtain ⟨h1, h2, h3, h4⟩ := hinv
  unfold stepMain at h
  split at h
  · -- entry
    rename_i hpc
    rw [hpc] at h4
    obtain ⟨hp, ht⟩ := h4
    split at h
    · simp only [Option.some.injEq] at h
      subst h
      simp_all [BarrierInv, pcInv, nSend, nRecv, nNow, printed, pending]
    · rename_i clients e conns tr hm
      have hs := setup_counts tr (makeConcurrentClients_setup env W s.conns _ hm)
      simp only [Option.some.injEq] at h
      subst h
      simp_all [BarrierInv, pcInv, pending]
    · rename_i clients conns tr hm
      have hs := setup_counts tr (makeConcurrentClients_setup env W s.conns _ hm)
      have hW : 0 ≤ W := by
        unfold makeConcurrentClients at hm
        split at hm
        · simp at hm
        · omega
      simp only [Option.some.injEq] at h
      subst h
      obtain ⟨hs1, hs2, hs3, hs4, hs5⟩ := hs
      simp only [nSend, nRecv, nNow] at hs1 hs2 hs3
      simp only [ht, nSend, nRecv, List.countP_nil, Nat.add_zero, List.length_eq_zero] at h2
      refine ⟨?_, ?_, ?_, ?_⟩
      · simp [nSend, List.countP_append, hp, ht, hs1, pending, Event.isSend]
      · simp [nSend, nRecv, List.countP_append, ht, hs1, hs2, h2, Event.isSend, Event.isRecv]
      · simp [hp]
      · simp only [printed] at hs4
        simp [pcInv, nRecv, nNow, printed, List.countP_append, List.filterMap_append, hp, ht, hs2,
          hs3, hs4, Event.isRecv, Event.isNow, hW]
  · -- launch
    rename_i i hpc
    rw [hpc] at h4
    obtain ⟨hi0, hiW, hlen, hr, hn, hpr⟩ := h4
    split at h
    · split at h
      · simp only [Option.some.injEq] at h
        subst h
        refine ⟨h1, h2, h3, ?_⟩
        simp [pcInv, hpr]
        intro h2n
        simp only [nNow] at hn h2n
        omega
      · rename_i c hc
        simp only [Option.some.injEq] at h
        subst h
        refine ⟨?_, ?_, ?_, ?_⟩
        · simp only [nSend, List.countP_append, pending_append, hsend, List.length_append] at h1 ⊢
          simp [Event.isSend]
          omega
        · simp only [nSend, nRecv, List.countP_append] at h2 ⊢
          simp [Event.isSend, Event.isRecv]
          omega
        · simp only [List.length_append, List.length_singleton]
          omega
        · simp only [nRecv, nNow, printed] at hr hn hpr
          simp [pcInv, nRecv, nNow, printed, List.countP_append, Event.isRecv, Event.isNow, hr, hn,
            hpr]
          omega
    · simp only [Option.some.injEq] at h
      subst h
      refine ⟨h1, h2, h3, ?_⟩
      simp [pcInv, hr, hn, hpr]
      omega
  · -- wait
    rename_i i hpc
    rw [hpc] at h4
    obtain ⟨hi0, hiW, hlen, hr, hn, hpr⟩ := h4
    split at h
    · split at h
      · simp at h
      · rename_i v rest hb
        simp only [Option.some.injEq] at h
        subst h
        refine ⟨?_, ?_, h3, ?_⟩
        · simp only [nSend, List.countP_append] at h1 ⊢
          simp [Event.isSend]
          omega
        · simp only [nSend, nRecv, List.countP_append, hb, List.length_cons] at h2 ⊢
          simp [Event.isSend, Event.isRecv]
          omega
        · simp only [nRecv, nNow, printed] at hr hn hpr
          simp [pcInv, nRecv, nNow, printed, List.countP_append, Event.isRecv, Event.isNow, hn,
            hpr, hlen]
          omega
    · simp only [Option.some.injEq] at h
      subst h
      refine ⟨h1, h2, h3, ?_⟩
      simp [pcInv, hn, hpr, hlen]
      omega
  · -- stop
    rename_i hpc
    rw [hpc] at h4
    obtain ⟨hlen, hr, hn, hpr⟩ := h4
    simp only [Option.some.injEq] at h
    subst h
    refine ⟨?_, ?_, h3, ?_⟩
    · simp only [nSend, List.countP_append] at h1 ⊢
      simp [Event.isSend]
      omega
    · simp only [nSend, nRecv, List.countP_append] at h2 ⊢
      simp [Event.isSend, Event.isRecv]
      omega
    · simp only [nRecv, printed] at hr hpr
      simp [pcInv, nRecv, printed, List.countP_append, Event.isRecv, hr, hlen, hpr]
  · -- quit
    rename_i i hpc
    rw [hpc] at h4
    obtain ⟨hlen, hr, hpr⟩ := h4
    split at h
    · split at h
      · simp only [Option.some.injEq] at h
        subst h
        exact ⟨h1, h2, h3, by simp [pcInv, hr, hlen, hpr]⟩
      · simp only [Option.some.injEq] at h
        subst h
        refine ⟨?_, ?_, h3, ?_⟩
        · simp only [nSend, List.countP_append] at h1 ⊢
          simp [Event.isSend]
          omega
        · simp only [nSend, nRecv, List.countP_append] at h2 ⊢
          simp [Event.isSend, Event.isRecv]
          omega
        · simp only [nRecv, printed] at hr hpr
          simp [pcInv, nRecv, printed, List.countP_append, Event.isRecv, hr, hlen, hpr]
    · simp only [Option.some.injEq] at h
      subst h
      exact ⟨h1, h2, h3, by simp [pcInv, hr, hlen, hpr]⟩
  · -- rep
    rename_i hpc
    rw [hpc] at h4
    obtain ⟨hlen, hr, hpr⟩ := h4
    split at h
    · simp only [Option.some.injEq] at h
      subst h
      refine ⟨?_, ?_, h3, ?_⟩
      · simp only [nSend, List.countP_append] at h1 ⊢
        simp [Event.isSend, List.countP_map, report]
        omega
      · simp only [nSend, nRecv, List.countP_append] at h2 ⊢
        simp [Event.isSend, Event.isRecv, report]
        omega
      · simp only [nRecv] at hr
        simp [pcInv, nRecv, List.countP_append, Event.isRecv, hr, hlen, report]
    · simp only [Option.some.injEq] at h
      subst h
      exact ⟨h1, h2, h3, by simp [pcInv, hr, hlen]⟩
  · simp at h
  · simp at h

theorem barrierInv_exec (env : Env) (spec : taskSpec) (hspec : spec ∈ tasks) (its W : Int)
    (pr : Bool) (w : World) (sched : List Tid) (s : State)
    (h : exec env spec its W pr sched (State.init w) = some s) : BarrierInv W s := by
  refine exec_induction env spec its W pr (BarrierInv W) ?_ sched (State.init w) s
    (barrierInv_init W w) h
  intro t s1 s2 hP hs
  cases t with
  | main => exact barrierInv_stepMain env spec its W pr (task_one_send spec hspec) s1 s2 hP hs
  | worker k => exact barrierInv_stepWorker W k s1 s2 hP hs

theorem barrierInv_timed (W : Int) (s : State) (hinv : BarrierInv W s)
    (h : 2 ≤ nNow s.trace ∨ printed s.trace ≠ []) :
    s.procs.length = W.toNat ∧ nRecv s.trace = W.toNat := by
  obtain ⟨_, _, _, h4⟩ := hinv
  cases hpc : s.pc with
  | ret d e =>
    rw [hpc] at h4
    cases e with
    | none => exact h4
    | some e =>
      obtain ⟨_, hn, hp⟩ := h4
      rcases h with h | h
      · omega
      · exact absurd hp h
  | entry =>
    rw [hpc] at h4
    obtain ⟨_, ht⟩ := h4
    rcases h with h | h
    · simp [ht, nNow] at h
    · simp [ht, printed] at h
  | launch i =>
    rw [hpc] at h4
    obtain ⟨_, _, _, _, hn, hp⟩ := h4
    rcases h with h | h
    · omega
    · exact absurd hp h
  | wait i =>
    rw [hpc] at h4
    obtain ⟨_, _, _, _, hn, hp⟩ := h4
    rcases h with h | h
    · omega
    · exact absurd hp h
  | stop =>
    rw [hpc] at h4
    exact ⟨h4.1, h4.2.1⟩
  | quit i =>
    rw [hpc] at h4
    exact ⟨h4.1, h4.2.1⟩
  | rep =>
    rw [hpc] at h4
    exact ⟨h4.1, h4.2.1⟩
  | crash =>
    rw [hpc] at h4
    obtain ⟨hp, hn⟩ := h4
    rcases h with h | h
    · exact hn h
    · exact absurd hp h

/-- Executions compose: a schedule that reaches `mid` followed by one that leads
from `mid` to `fin`. -/
theorem exec_chain (env : Env) (spec : taskSpec) (its W : Int) (pr : Bool)
    (s1 s2 : List Tid) (st mid fin : State)
    (h1 : exec env spec its W pr s1 st = some mid)
    (h2 : exec env spec its W pr s2 mid = some fin) :
    exec env spec its W pr (s1 ++ s2) st = some fin := by
  rw [exec_append, h1]
  exact h2

theorem barrierExample_reached :
    exec envOk ⟨doIncr, "INCR"⟩ 1 2 true
      ([Tid.main, Tid.main, Tid.main, Tid.main, Tid.worker 1, Tid.worker 1, Tid.main]
        ++ ([Tid.worker 0, Tid.worker 0, Tid.main, Tid.main, Tid.main]
          ++ [Tid.main, Tid.main, Tid.main, Tid.main]))
      (State.init ⟨0, 0, 0⟩) = some barrierExample :=
  exec_chain _ _ _ _ _ _ _ _ barrierMid1 _ (by decide)
    (exec_chain _ _ _ _ _ _ _ _ barrierMid2 _ (by decide) (by decide))

/-- C1: in every state of every execution of `benchTask` on a task of the
catalogue with `W >= 0` workers, at most `W` tokens have been received and at
most `W` sent; and once the elapsed time has been taken (the second clock
reading) or anything has been printed, exactly `W` tokens have been received,
exactly `W` have been sent, `W` goroutines have been launched and none of them
has a send left. -/
theorem elapsed_and_report_only_after_all_tokens (env : Env) (spec : taskSpec)
    (hspec : spec ∈ tasks) (iterations W : Int) (hW : 0 ≤ W) (printReport : Bool) (w : World)
    (sched : List Tid) (s : State)
    (h : exec env spec iterations W printReport sched (State.init w) = some s) :
    (nRecv s.trace : Int) ≤ W ∧ (nSend s.trace : Int) ≤ W
    ∧ (2 ≤ nNow s.trace ∨ printed s.trace ≠ [] →
        (nRecv s.trace : Int) = W ∧ (nSend s.trace : Int) = W
        ∧ (s.procs.length : Int) = W ∧ pending s.procs = 0) := by
  have hinv := barrierInv_exec env spec hspec iterations W printReport w sched s h
  have h1 := hinv.1
  have h2 := hinv.2.1
  have h3 := hinv.2.2.1
  refine ⟨by omega, by omega, fun ht => ?_⟩
  obtain ⟨hl, hr⟩ := barrierInv_timed W s hinv ht
  refine ⟨by omega, by omega, by omega, by omega⟩

theorem elapsed_and_report_only_after_all_tokens_witness :
    (⟨doIncr, "INCR"⟩ : taskSpec) ∈ tasks ∧ (0 : Int) ≤ 2
    ∧ exec envOk ⟨doIncr, "INCR"⟩ 1 2 true
        ([Tid.main, Tid.main, Tid.main, Tid.main, Tid.worker 1, Tid.worker 1, Tid.main]
          ++ ([Tid.worker 0, Tid.worker 0, Tid.main, Tid.main, Tid.main]
            ++ [Tid.main, Tid.main, Tid.main, Tid.main]))
        (State.init ⟨0, 0, 0⟩) = some barrierExample
    ∧ 2 ≤ nNow barrierExample.trace
    ∧ printed barrierExample.trace
        = ["---\n", "cmd: concurrent INCR\n", "2 iterations of concurrent INCR in 1 msecs\n"]
    ∧ ((nRecv barrierExample.trace : Int) ≤ 2 ∧ (nSend barrierExample.trace : Int) ≤ 2
      ∧ (2 ≤ nNow barrierExample.trace ∨ printed barrierExample.trace ≠ [] →
          (nRecv barrierExample.trace : Int) = 2 ∧ (nSend barrierExample.trace : Int) = 2
          ∧ (barrierExample.procs.length : Int) = 2 ∧ pending barrierExample.procs = 0)) :=
  ⟨by simp [tasks], by decide, barrierExample_reached, by decide, by decide,
   elapsed_and_report_only_after_all_tokens envOk ⟨doIncr, "INCR"⟩ (by simp [tasks]) 1 2
     (by decide) true ⟨0, 0, 0⟩ _ barrierExample barrierExample_reached⟩

theorem freshClients_succ_left (conns n : Nat) :
    freshClients conns (n + 1) = Client.conn conns :: freshClients (conns + 1) n := by
  simp only [freshClients, List.range_succ_eq_map, List.map_cons, List.map_map, Nat.add_zero]
  congr 1
  apply List.map_congr_left
  intro j _
  simp only [Function.comp, Client.conn.injEq]
  omega

theorem connectedEvents_succ_left (conns n : Nat) :
    connectedEvents conns (n + 1)
      = Event.connected (Client.conn conns) :: connectedEvents (conns + 1) n := by
  simp only [connectedEvents, List.range_succ_eq_map, List.map_cons, List.map_map, Nat.add_zero]
  congr 1
  apply List.map_congr_left
  intro j _
  simp only [Function.comp, Event.connected.injEq, Client.conn.injEq]
  omega

theorem take_set_succ (l : List Client) (c : Client) :
    ∀ i : Nat, i < l.length → (l.set i c).take (i + 1) = l.take i ++ [c] := by
  induction l with
  | nil => intro i h; simp at h
  | cons x l ih =>
    intro i h
    cases i with
    | zero => simp
    | succ i =>
      simp only [List.length_cons, Nat.add_lt_add_iff_right] at h
      simp [ih i h]

/-- The construction loop when every remaining construction call succeeds. -/
theorem makeClientsLoop_ok (env : Env) (W : Int) :
    ∀ (fuel : Nat) (i : Int) (cl : List Client) (conns : Nat) (tr : List Event),
      0 ≤ i → i ≤ W → cl.length = W.toNat → (W - i).toNat < fuel →
      (∀ j, j < (W - i).toNat → env.connectError (conns + j) = none) →
      makeClientsLoop env W fuel i cl conns tr
        = ((cl.take i.toNat ++ freshClients conns (W - i).toNat, none),
            conns + (W - i).toNat, tr ++ connectedEvents conns (W - i).toNat) := by
  intro fuel
  induction fuel with
  | zero => intro i cl conns tr _ _ _ h; omega
  | succ fuel ih =>
    intro i cl conns tr hi0 hiW hlen hfuel hok
    unfold makeClientsLoop
    by_cases hlt : i < W
    · have hn : (W - i).toNat = (W - (i + 1)).toNat + 1 := by omega
      have h0 := hok 0 (by omega)
      simp only [Nat.add_zero] at h0
      rw [if_pos hlt]
      simp only [h0]
      rw [ih (i + 1) _ (conns + 1) _ (by omega) (by omega) (by simpa using hlen) (by omega)
        (fun j hj => by
          have := hok (j + 1) (by omega)
          rw [← this]; congr 1; omega)]
      have hi1 : (i + 1).toNat = i.toNat + 1 := by omega
      rw [hn, freshClients_succ_left, connectedEvents_succ_left, hi1,
        take_set_succ cl _ i.toNat (by omega)]
      simp only [List.append_assoc, List.singleton_append, Prod.mk.injEq, and_true, true_and]
      omega
    · have hn : (W - i).toNat = 0 := by omega
      have hiw : i.toNat = W.toNat := by omega
      rw [if_neg hlt, hn]
      simp [freshClients, connectedEvents, hiw, ← hlen]

/-- The construction loop when the `k`-th remaining construction call is the first to fail. -/
theorem makeClientsLoop_fail (env : Env) (W : Int) (e : OsError) :
    ∀ (fuel : Nat) (k : Nat) (i : Int) (cl : List Client) (conns : Nat) (tr : List Event),
      k < (W - i).toNat → (W - i).toNat < fuel →
      (∀ j, j < k → env.connectError (conns + j) = none) →
      env.connectError (conns + k) = some e →
      makeClientsLoop env W fuel i cl conns tr
        = (([], some e), conns + k + 1,
            tr ++ connectedEvents conns k ++ [Event.log ("Error creating client for worker: " ++ e)]) := by
  intro fuel
  induction fuel with
  | zero => intro k i cl conns tr _ h; omega
  | succ fuel ih =>
    intro k i cl conns tr hk hfuel hok hfail
    unfold makeClientsLoop
    have hlt : i < W := by omega
    rw [if_pos hlt]
    cases k with
    | zero =>
      simp only [Nat.add_zero] at hfail
      simp [hfail, connectedEvents]
    | succ k =>
      have h0 := hok 0 (by omega)
      simp only [Nat.add_zero] at h0
      simp only [h0]
      rw [ih k (i + 1) _ (conns + 1) _ (by omega) (by omega)
        (fun j hj => by
          have := hok (j + 1) (by omega)
          rw [← this]; congr 1; omega)
        (by rw [← hfail]; congr 1; omega)]
      rw [connectedEvents_succ_left]
      simp only [List.append_assoc, List.singleton_append, List.cons_append, Prod.mk.injEq,
        and_true, true_and]
      exact ⟨by omega, rfl⟩

theorem makeConcurrentClients_ok (env : Env) (W : Int) (conns : Nat) (hW : 0 ≤ W)
    (hok : ∀ j, j < W.toNat → env.connectError (conns + j) = none) :
    makeConcurrentClients env W conns
      = some ((freshClients conns W.toNat, none), conns + W.toNat,
          connectedEvents conns W.toNat) := by
  unfold makeConcurrentClients
  rw [if_neg (by omega)]
  rw [makeClientsLoop_ok env W _ 0 _ conns [] (by omega) hW (by simp) (by omega)
    (by simpa using hok)]
  simp

theorem makeConcurrentClients_fail (env : Env) (W : Int) (conns k : Nat) (e : OsError)
    (hk : (k : Int) < W) (hok : ∀ j, j < k → env.connectError (conns + j) = none)
    (hfail : env.connectError (conns + k) = some e) :
    makeConcurrentClients env W conns
      = some (([], some e), conns + k + 1,
          connectedEvents conns k ++ [Event.log ("Error creating client for worker: " ++ e)]) := by
  unfold makeConcurrentClients
  rw [if_neg (by omega)]
  rw [makeClientsLoop_fail env W e _ k 0 _ conns [] (by omega) (by omega) hok hfail]
  simp

theorem stepWorker_no_procs (W : Int) (k : Nat) (s : State) (h : s.procs = []) :
    stepWorker W k s = none := by
  simp [stepWorker, h]

theorem stepMain_entry_fail (env : Env) (spec : taskSpec) (its W : Int) (pr : Bool) (w : World)
    (k : Nat) (e : OsError) (hk : (k : Int) < W)
    (hok : ∀ j, j < k → env.connectError (w.conns + j) = none)
    (hfail : env.connectError (w.conns + k) = some e) :
    stepMain env spec its W pr (State.init w) = some (failedState w k e) := by
  have hm := makeConcurrentClients_fail env W w.conns k e hk hok hfail
  simp only [stepMain, State.init] at hm ⊢
  rw [hm]
  simp [failedState, State.init]

theorem launches_failed (conns k : Nat) (text : String) :
    launches (connectedEvents conns k ++ [Event.log text]) = []
    ∧ printed (connectedEvents conns k ++ [Event.log text]) = [] := by
  have h := setup_counts (connectedEvents conns k ++ [Event.log text]) (by
    intro e he
    simp only [connectedEvents, List.mem_append, List.mem_map, List.mem_range,
      List.mem_singleton] at he
    rcases he with ⟨j, _, rfl⟩ | rfl <;> rfl)
  exact ⟨h.2.2.2.2, h.2.2.2.1⟩

/-- C5: when the construction of the `k`-th client (`k < W`) fails with error `e`
after the earlier ones succeeded, `makeConcurrentClients` returns no client list
and `e`; `benchTask` returns `(0, e)` at its first step; and in every state of
every execution no goroutine has been launched and nothing has been printed. -/
theorem construction_failure_aborts_the_run (env : Env) (spec : taskSpec)
    (iterations W : Int) (printReport : Bool) (w : World) (k : Nat) (e : OsError)
    (hk : (k : Int) < W) (hok : ∀ j, j < k → env.connectError (w.conns + j) = none)
    (hfail : env.connectError (w.conns + k) = some e) :
    makeConcurrentClients env W w.conns
        = some (([], some e), w.conns + k + 1,
            connectedEvents w.conns k ++ [Event.log ("Error creating client for worker: " ++ e)])
    ∧ benchTask env spec iterations W printReport [Tid.main] w
        = some ((0, some e), ⟨w.conns + k + 1, w.ticks, w.chans + 1⟩,
            connectedEvents w.conns k ++ [Event.log ("Error creating client for worker: " ++ e)])
    ∧ ∀ (sched : List Tid) (s : State),
        exec env spec iterations W printReport sched (State.init w) = some s →
          s.procs = [] ∧ launches s.trace = [] ∧ printed s.trace = []
          ∧ (s.pc = Pc.entry ∨ s.pc = Pc.ret 0 (some e)) := by
  have hstep := stepMain_entry_fail env spec iterations W printReport w k e hk hok hfail
  refine ⟨makeConcurrentClients_fail env W w.conns k e hk hok hfail, ?_, ?_⟩
  · simp only [benchTask, exec, step, hstep]
    rfl
  · intro sched s h
    cases sched with
    | nil =>
      simp only [exec, Option.some.injEq] at h
      subst h
      simp [State.init, launches, printed]
    | cons t rest =>
      cases t with
      | worker j => simp [exec, step, stepWorker_no_procs W j (State.init w) rfl] at h
      | main =>
        simp only [exec, step, hstep] at h
        cases rest with
        | nil =>
          simp only [exec, Option.some.injEq] at h
          subst h
          have hl := launches_failed w.conns k ("Error creating client for worker: " ++ e)
          simp [failedState, State.init, hl.1, hl.2]
        | cons t2 rest2 =>
          cases t2 with
          | worker j =>
            simp [exec, step, stepWorker_no_procs W j (failedState w k e) rfl] at h
          | main => simp [exec, step, stepMain, failedState] at h

theorem construction_failure_aborts_the_run_witness :
    ((2 : Nat) : Int) < 5
    ∧ (∀ j, j < 2 →
        (⟨32, fun n => if n = 2 then some "refused" else none, fun _ => 0, fun _ => []⟩ : Env).connectError
          ((⟨0, 0, 0⟩ : World).conns + j) = none)
    ∧ makeConcurrentClients
        ⟨32, fun n => if n = 2 then some "refused" else none, fun _ => 0, fun _ => []⟩ 5 0
        = some (([], some "refused"), 3,
            [Event.connected (Client.conn 0), Event.connected (Client.conn 1),
             Event.log "Error creating client for worker: refused"])
    ∧ benchTask ⟨32, fun n => if n = 2 then some "refused" else none, fun _ => 0, fun _ => []⟩
        ⟨doIncr, "INCR"⟩ 7 5 true [Tid.main] ⟨0, 0, 0⟩
        = some ((0, some "refused"), ⟨3, 0, 1⟩,
            [Event.connected (Client.conn 0), Event.connected (Client.conn 1),
             Event.log "Error creating client for worker: refused"]) :=
  have h := construction_failure_aborts_the_run
    ⟨32, fun n => if n = 2 then some "refused" else none, fun _ => 0, fun _ => []⟩
    ⟨doIncr, "INCR"⟩ 7 5 true ⟨0, 0, 0⟩ 2 "refused" (by decide)
    (by intro j hj; interval_cases j <;> rfl) rfl
  ⟨by decide, by intro j hj; interval_cases j <;> rfl, h.1, h.2.1⟩

theorem freshClients_getElem? (conns n j : Nat) (h : j < n) :
    (freshClients conns n)[j]? = some (Client.conn (conns + j)) := by
  simp [freshClients, List.getElem?_map, List.getElem?_range h]

theorem goEvents_succ (iterations : Int) (signal : Chan) (conns n : Nat) :
    goEvents iterations signal conns (n + 1)
      = goEvents iterations signal conns n
        ++ [Event.go (sprintfD (n : Int)) signal (Client.conn (conns + n)) iterations] := by
  simp [goEvents, List.range_succ]

theorem goEvents_length (iterations : Int) (signal : Chan) (conns n : Nat) :
    (goEvents iterations signal conns n).length = n := by
  simp [goEvents]

theorem connectedEvents_filters (conns n : Nat) :
    launches (connectedEvents conns n) = []
    ∧ constructed (connectedEvents conns n) = connectedEvents conns n := by
  constructor
  · simp only [launches, List.filter_eq_nil_iff, connectedEvents, List.mem_map, List.mem_range]
    rintro e ⟨j, _, rfl⟩
    simp [Event.isGo]
  · simp only [constructed, List.filter_eq_self, connectedEvents, List.mem_map, List.mem_range]
    rintro e ⟨j, _, rfl⟩
    rfl

theorem launchInv_init (spec : taskSpec) (its W : Int) (w : World) :
    LaunchInv spec its W w (State.init w) := by
  simp [LaunchInv, launchPc, State.init, launches]

theorem launchInv_stepWorker (spec : taskSpec) (its W : Int) (w : World) (k : Nat)
    (s s2 : State) (hinv : LaunchInv spec its W w s) (h : stepWorker W k s = some s2) :
    LaunchInv spec its W w s2 := by
  obtain ⟨h1, h2, h3, h4⟩ := hinv
  have key : ∀ (a : Action) (rest : List Action) (ev : Event) (buf : List Int),
      s.procs[k]? = some (a :: rest) → ev.isGo = false → ev.isConnected = false →
      LaunchInv spec its W w
        { s with procs := s.procs.set k rest, buf := buf, trace := s.trace ++ [ev] } := by
    intro a rest ev buf hk hgo hcon
    have hl : launches (s.trace ++ [ev]) = launches s.trace := by
      simp [launches, List.filter_append, hgo]
    have hc : constructed (s.trace ++ [ev]) = constructed s.trace := by
      simp [constructed, List.filter_append, hcon]
    refine ⟨?_, ?_, ?_, ?_⟩
    · cases hpc : s.pc with
      | entry =>
        rw [hpc] at h1
        simp only [launchPc] at h1
        rw [h1] at hk
        simp [State.init] at hk
      | ret d e =>
        rw [hpc] at h1
        cases e <;> simp_all [launchPc]
      | _ =>
        rw [hpc] at h1
        simp_all [launchPc]
    · simp only [List.length_set, hl]
      exact h2
    · intro hne
      have := h3 hne
      simp only [hc]
      exact this
    · intro j p hj
      simp only [List.getElem?_set] at hj
      by_cases hkj : k = j
      · subst hkj
        have hlt : k < s.procs.length := by
          rcases Nat.lt_or_ge k s.procs.length with hlt | hge
          · exact hlt
          · simp [List.getElem?_eq_none hge] at hk
        simp only [if_true, hlt] at hj
        simp only [Option.some.injEq] at hj
        subst hj
        have hsuf := h4 k _ hk
        exact List.IsSuffix.trans (List.suffix_cons a _) hsuf
      · simp only [hkj, if_false] at hj
        exact h4 j p hj
  unfold stepWorker at h
  split at h
  · simp at h
  · simp at h
  · rename_i c cmd rest hk
    simp only [Option.some.injEq] at h
    subst h
    exact key _ rest (Event.call c cmd) s.buf hk rfl rfl
  · rename_i ch v rest hk
    split at h
    · simp only [Option.some.injEq] at h
      subst h
      exact key _ rest (Event.send ch v) (s.buf ++ [v]) hk rfl rfl
    · simp at h

theorem launchInv_stepMain (env : Env) (spec : taskSpec) (its W : Int) (pr : Bool) (w : World)
    (hW : 0 ≤ W) (hok : ∀ j, j < W.toNat → env.connectError (w.conns + j) = none)
    (s s2 : State) (hinv : LaunchInv spec its W w s)
    (h : stepMain env spec its W pr s = some s2) : LaunchInv spec its W w s2 := by
  obtain ⟨h1, h2, h3, h4⟩ := hinv
  unfold stepMain at h
  split at h
  · -- entry
    rename_i hpc
    rw [hpc] at h1
    simp only [launchPc] at h1
    subst h1
    have hm := makeConcurrentClients_ok env W w.conns hW hok
    simp only [State.init] at h
    rw [hm] at h
    simp only [Option.some.injEq] at h
    subst h
    have hf := connectedEvents_filters w.conns W.toNat
    refine ⟨?_, ?_, ?_, ?_⟩
    · simp only [launchPc, State.init]
      refine ⟨le_refl _, hW, ?_⟩
      simp only [launches] at hf
      simp [launches, List.filter_append, hf.1, goEvents, Event.isGo]
    · simp only [launches] at hf
      simp [launches, List.filter_append, hf.1, Event.isGo]
    · intro _
      simp only [constructed] at hf
      simp [constructed, List.filter_append, hf.2, Event.isConnected]
    · intro j p hj
      simp at hj
  · -- launch
    rename_i i hpc
    rw [hpc] at h1
    obtain ⟨hi0, hiW, hl⟩ := h1
    have hne : s.pc ≠ Pc.entry := by rw [hpc]; exact fun hh => Pc.noConfusion hh
    obtain ⟨hcl, hsig, hcon⟩ := h3 hne
    split at h
    · rename_i hlt
      have hget : s.clients[i.toNat]? = some (Client.conn (w.conns + i.toNat)) := by
        rw [hcl]
        exact freshClients_getElem? _ _ _ (by omega)
      rw [hget] at h
      simp only [Option.some.injEq] at h
      subst h
      have hi : ((i.toNat : Nat) : Int) = i := by omega
      have hi1 : (i + 1).toNat = i.toNat + 1 := by omega
      have hlen : s.procs.length = i.toNat := by
        rw [h2, hl, goEvents_length]
      refine ⟨?_, ?_, ?_, ?_⟩
      · simp only [launchPc]
        refine ⟨by omega, by omega, ?_⟩
        simp only [launches] at hl
        simp [launches, List.filter_append, hl, Event.isGo, hi1, goEvents_succ, hi, hsig]
      · simp only [launches] at h2
        simp [launches, List.filter_append, Event.isGo, h2]
      · intro _
        simp only [constructed] at hcon
        simp [constructed, List.filter_append, Event.isConnected, hcon, hcl, hsig]
      · intro j p hj
        rcases Nat.lt_or_ge j s.procs.length with hjl | hjl
        · rw [List.getElem?_append_left hjl] at hj
          exact h4 j p hj
        · rw [List.getElem?_append_right hjl] at hj
          have hj0 : j - s.procs.length = 0 := by
            cases hm : j - s.procs.length with
            | zero => rfl
            | succ m => rw [hm] at hj; simp at hj
          have hji : j = i.toNat := by omega
          rw [hj0] at hj
          simp only [List.getElem?_cons_zero, Option.some.injEq] at hj
          subst hj
          rw [hji, hi, hsig]
    · rename_i hlt
      simp only [Option.some.injEq] at h
      subst h
      have hiw : i.toNat = W.toNat := by omega
      exact ⟨by simpa [launchPc, hiw] using hl, h2, fun _ => h3 hne, h4⟩
  · -- wait
    rename_i i hpc
    rw [hpc] at h1
    have hne : s.pc ≠ Pc.entry := by rw [hpc]; exact fun hh => Pc.noConfusion hh
    split at h
    · split at h
      · simp at h
      · rename_i v rest hb
        simp only [Option.some.injEq] at h
        subst h
        have hl2 : launches (s.trace ++ [Event.recv s.signal v]) = launches s.trace := by
          simp [launches, List.filter_append, Event.isGo]
        have hc2 : constructed (s.trace ++ [Event.recv s.signal v]) = constructed s.trace := by
          simp [constructed, List.filter_append, Event.isConnected]
        refine ⟨?_, ?_, ?_, h4⟩
        · simp only [launchPc, hl2]
          exact h1
        · simp only [hl2]
          exact h2
        · intro _
          simp only [hc2]
          exact h3 hne
    · simp only [Option.some.injEq] at h
      subst h
      exact ⟨h1, h2, fun _ => h3 hne, h4⟩
  · -- stop
    rename_i hpc
    rw [hpc] at h1
    have hne : s.pc ≠ Pc.entry := by rw [hpc]; exact fun hh => Pc.noConfusion hh
    simp only [Option.some.injEq] at h
    subst h
    have hl2 : launches (s.trace ++ [Event.now (env.nanoseconds s.ticks)]) = launches s.trace := by
      simp [launches, List.filter_append, Event.isGo]
    have hc2 : constructed (s.trace ++ [Event.now (env.nanoseconds s.ticks)])
        = constructed s.trace := by
      simp [constructed, List.filter_append, Event.isConnected]
    refine ⟨?_, ?_, ?_, h4⟩
    · simp only [launchPc, hl2]
      exact ⟨le_refl _, h1⟩
    · simp only [hl2]
      exact h2
    · intro _
      simp only [hc2]
      exact h3 hne
  · -- quit
    rename_i i hpc
    rw [hpc] at h1
    obtain ⟨hi0, hl⟩ := h1
    have hne : s.pc ≠ Pc.entry := by rw [hpc]; exact fun hh => Pc.noConfusion hh
    obtain ⟨hcl, hsig, hcon⟩ := h3 hne
    split at h
    · rename_i hlt
      have hget : s.clients[i.toNat]? = some (Client.conn (w.conns + i.toNat)) := by
        rw [hcl]
        exact freshClients_getElem? _ _ _ (by omega)
      rw [hget] at h
      simp only [Option.some.injEq] at h
      subst h
      have hl2 : launches (s.trace ++ [Event.quit (Client.conn (w.conns + i.toNat))])
          = launches s.trace := by
        simp [launches, List.filter_append, Event.isGo]
      have hc2 : constructed (s.trace ++ [Event.quit (Client.conn (w.conns + i.toNat))])
          = constructed s.trace := by
        simp [constructed, List.filter_append, Event.isConnected]
      refine ⟨?_, ?_, ?_, h4⟩
      · simp only [launchPc, hl2]
        exact ⟨by omega, hl⟩
      · simp only [hl2]
        exact h2
      · intro _
        simp only [hc2]
        exact h3 hne
    · simp only [Option.some.injEq] at h
      subst h
      exact ⟨hl, h2, fun _ => h3 hne, h4⟩
  · -- rep
    rename_i hpc
    rw [hpc] at h1
    have hne : s.pc ≠ Pc.entry := by rw [hpc]; exact fun hh => Pc.noConfusion hh
    split at h
    · simp only [Option.some.injEq] at h
      subst h
      have hl2 : launches (s.trace ++ (report env ("concurrent " ++ spec.name) s.delta
          (wrapInt env.intBits (its * W))).map Event.print) = launches s.trace := by
        simp [launches, List.filter_append, Event.isGo, report]
      have hc2 : constructed (s.trace ++ (report env ("concurrent " ++ spec.name) s.delta
          (wrapInt env.intBits (its * W))).map Event.print) = constructed s.trace := by
        simp [constructed, List.filter_append, Event.isConnected, report]
      refine ⟨?_, ?_, ?_, h4⟩
      · simp only [launchPc, hl2]
        exact h1
      · simp only [hl2]
        exact h2
      · intro _
        simp only [hc2]
        exact h3 hne
    · simp only [Option.some.injEq] at h
      subst h
      exact ⟨h1, h2, fun _ => h3 hne, h4⟩
  · simp at h
  · simp at h

theorem launchInv_exec (env : Env) (spec : taskSpec) (its W : Int) (pr : Bool) (w : World)
    (hW : 0 ≤ W) (hok : ∀ j, j < W.toNat → env.connectError (w.conns + j) = none)
    (sched : List Tid) (s : State)
    (h : exec env spec its W pr sched (State.init w) = some s) : LaunchInv spec its W w s := by
  refine exec_induction env spec its W pr (LaunchInv spec its W w) ?_ sched (State.init w) s
    (launchInv_init spec its W w) h
  intro t s1 s2 hP hs
  cases t with
  | main => exact launchInv_stepMain env spec its W pr w hW hok s1 s2 hP hs
  | worker k => exact launchInv_stepWorker spec its W w k s1 s2 hP hs

theorem sprintfD_range_nodup (n : Nat) :
    ((List.range n).map fun (j : Nat) => sprintfD (j : Int)).Nodup :=
  List.Nodup.map (fun i j hij => sprintfD_injective i j hij) (List.nodup_range n)

theorem freshClients_nodup (conns n : Nat) : (freshClients conns n).Nodup :=
  List.Nodup.map (fun i j hij => by
    simp only [Client.conn.injEq] at hij
    omega) (List.nodup_range n)

/-- C7: when `W >= 0` and every client construction succeeds, in every state of
every execution of `benchTask` the goroutines launched so far are workers
`0 .. k-1` for some `k <= W`, worker `j` having been given the decimal rendering
of `j`, the signal made by this call, the client of the `j`-th construction call
and the iteration count, and running the task on these arguments; once the
caller has left the launch loop exactly `W` clients have been constructed and
exactly `W` workers launched; the identities are pairwise distinct and so are
the clients; and the call returns no error. -/
theorem launches_one_worker_per_client (env : Env) (spec : taskSpec) (iterations W : Int)
    (printReport : Bool) (w : World) (hW : 0 ≤ W)
    (hok : ∀ j, j < W.toNat → env.connectError (w.conns + j) = none)
    (sched : List Tid) (s : State)
    (h : exec env spec iterations W printReport sched (State.init w) = some s) :
    (∃ k, k ≤ W.toNat ∧ launches s.trace = goEvents iterations w.chans w.conns k
        ∧ s.procs.length = k)
    ∧ (s.pc ≠ Pc.entry → (∀ i, s.pc ≠ Pc.launch i) →
        launches s.trace = goEvents iterations w.chans w.conns W.toNat
        ∧ constructed s.trace = connectedEvents w.conns W.toNat
        ∧ s.clients = freshClients w.conns W.toNat
        ∧ s.procs.length = W.toNat)
    ∧ (∀ (j : Nat) (p : List Action), s.procs[j]? = some p →
        p <:+ spec.task (sprintfD (j : Int)) w.chans (Client.conn (w.conns + j)) iterations)
    ∧ ((List.range W.toNat).map fun (j : Nat) => sprintfD (j : Int)).Nodup
    ∧ (freshClients w.conns W.toNat).Nodup
    ∧ s.pc ≠ Pc.crash ∧ ∀ d err, s.pc = Pc.ret d err → err = none := by
  obtain ⟨h1, h2, h3, h4⟩ := launchInv_exec env spec iterations W printReport w hW hok sched s h
  have hfull : s.pc ≠ Pc.entry → (∀ i, s.pc ≠ Pc.launch i) →
      launches s.trace = goEvents iterations w.chans w.conns W.toNat := by
    intro hne hnl
    cases hpc : s.pc with
    | entry => exact absurd hpc hne
    | launch i => exact absurd hpc (hnl i)
    | ret d e =>
      rw [hpc] at h1
      cases e with
      | none => exact h1
      | some e => exact h1.elim
    | crash => rw [hpc] at h1; exact h1.elim
    | quit i => rw [hpc] at h1; exact h1.2
    | wait i => rw [hpc] at h1; exact h1
    | stop => rw [hpc] at h1; exact h1
    | rep => rw [hpc] at h1; exact h1
  refine ⟨?_, ?_, h4, sprintfD_range_nodup _, freshClients_nodup _ _, ?_, ?_⟩
  · cases hpc : s.pc with
    | entry =>
      rw [hpc] at h1
      simp only [launchPc] at h1
      subst h1
      exact ⟨0, Nat.zero_le _, by simp [State.init, launches, goEvents], rfl⟩
    | launch i =>
      rw [hpc] at h1
      obtain ⟨hi0, hiW, hl⟩ := h1
      exact ⟨i.toNat, by omega, hl, by rw [h2, hl, goEvents_length]⟩
    | _ =>
      have hl := hfull (by rw [hpc]; exact fun hh => Pc.noConfusion hh)
        (by intro i; rw [hpc]; exact fun hh => Pc.noConfusion hh)
      exact ⟨W.toNat, le_refl _, hl, by rw [h2, hl, goEvents_length]⟩
  · intro hne hnl
    have hl := hfull hne hnl
    obtain ⟨hcl, _, hcon⟩ := h3 hne
    exact ⟨hl, hcon, hcl, by rw [h2, hl, goEvents_length]⟩
  · intro hc
    rw [hc] at h1
    exact h1
  · intro d err hpc
    rw [hpc] at h1
    cases err with
    | none => rfl
    | some e => exact h1.elim

theorem launches_one_worker_per_client_witness :
    (0 : Int) ≤ 2
    ∧ (∀ j, j < (2 : Int).toNat → envOk.connectError ((⟨0, 0, 0⟩ : World).conns + j) = none)
    ∧ exec envOk ⟨doIncr, "INCR"⟩ 1 2 true
        ([Tid.main, Tid.main, Tid.main, Tid.main, Tid.worker 1, Tid.worker 1, Tid.main]
          ++ ([Tid.worker 0, Tid.worker 0, Tid.main, Tid.main, Tid.main]
            ++ [Tid.main, Tid.main, Tid.main, Tid.main]))
        (State.init ⟨0, 0, 0⟩) = some barrierExample
    ∧ launches barrierExample.trace
        = [Event.go "0" 0 (Client.conn 0) 1, Event.go "1" 0 (Client.conn 1) 1]
    ∧ constructed barrierExample.trace
        = [Event.connected (Client.conn 0), Event.connected (Client.conn 1)]
    ∧ barrierExample.procs.length = 2 :=
  have h := launches_one_worker_per_client envOk ⟨doIncr, "INCR"⟩ 1 2 true ⟨0, 0, 0⟩
    (by decide) (fun _ _ => rfl) _ barrierExample barrierExample_reached
  have h2 := h.2.1 (by decide) (fun _ hh => Pc.noConfusion hh)
  ⟨by decide, fun _ _ => rfl, barrierExample_reached, h2.1, h2.2.1, h2.2.2.2⟩

end GoRedisBench
